import Mathlib

/-!
Verification of the DeeplX endpoint availability checker
(`scripts/check_deeplx.py`).

The development shallowly embeds the core of the script:

* `is_translation_valid` — the translation validator;
* `extract_translation` — the breadth-first extractor over JSON-like
  payloads.  Python values are heap objects compared by identity
  (`id(...)`), so the embedding uses an explicit store: a value is a
  reference (`Ref`, a natural number) into a list of `Node`s, and a node
  may reference any other node, which represents shared and cyclic
  structures faithfully.  The Python `while queue:` loop is embedded
  with explicit fuel; termination is proved by exhibiting a fuel bound
  (`extractBound`) that is never exhausted;
* `check_endpoint` — the per-endpoint prober.  Network I/O is
  environmental: the outcome of the i-th HTTP POST of a probe is given
  by an oracle `net : Nat → ReqResult`.  Wall-clock timing
  (`time.perf_counter`) is environmental as well and is not modelled;
  the `elapsed` field is omitted from the embedded `EndpointResult`;
* the exit-code logic of `main` (`mainModel`), with the CSV read
  abstracted as a `ReadOutcome` (file I/O is environmental).

String primitives (`str.split()`, `str.lower()`, `str.strip()`,
`str.rstrip("/")`) are embedded as character-list operations.
-/

/-! ## String helpers (models of the Python string primitives) -/

/-- Model of `"".join(s.split())`: remove every whitespace character. -/
def removeWhitespace (s : String) : String :=
  ⟨s.data.filter (fun c => !c.isWhitespace)⟩

/-- Model of `str.lower()`: lower-case every character. -/
def pyLower (s : String) : String :=
  ⟨s.data.map Char.toLower⟩

/-- Model of `str.strip()`: drop whitespace from both ends. -/
def pyStrip (s : String) : String :=
  ⟨((s.data.dropWhile Char.isWhitespace).reverse.dropWhile Char.isWhitespace).reverse⟩

/-- Model of `str.rstrip("/")`: drop trailing slashes. -/
def rstripSlashes (s : String) : String :=
  ⟨(s.data.reverse.dropWhile (fun c => c == '/')).reverse⟩

/-- `"".join(text.split()).lower()` as used by the validator. -/
def normalizeText (s : String) : String :=
  pyLower (removeWhitespace s)

/-! ## Translation validator (`is_translation_valid`, lines 208-218) -/

/-- Embedding of `is_translation_valid`.  The Python argument is
`Optional[str]`; `if not translated_text` is the truthiness test, false
for both `None` and `""`. -/
def is_translation_valid (source_text : String) (translated_text : Option String) : Bool :=
  match translated_text with
  | none => false
  | some t =>
    if t = "" then false
    else
      let normalized_source := normalizeText source_text
      let normalized_translation := normalizeText t
      if normalized_translation = "" then false
      else normalized_source != normalized_translation

/-! ## JSON-like values with object identity

A Python value handled by `extract_translation` lives on a heap; `id()`
compares references.  `Store` is the heap, `Ref` an object identity.
`Node.scalar` stands for numbers, booleans and `None`, which the
extractor ignores. -/

abbrev Ref := Nat

inductive Node where
  | str (s : String)
  | scalar
  | obj (fields : List (String × Ref))
  | arr (items : List Ref)
deriving DecidableEq, Repr

abbrev Store := List Node

/-- The fixed priority list of keys (line 161). -/
def preferredKeys : List String := ["data", "text", "result", "translation"]

/-- Python `key in current` / `current[key]` on a dict: keys are unique
in a dict, embedded as first-match lookup in the association list. -/
def lookupField : List (String × Ref) → String → Option Ref
  | [], _ => none
  | (k, r) :: rest, key => if k = key then some r else lookupField rest key

/-- Outcome of one scanning pass of the extractor body: either a string
was returned or a list of references was appended to the queue. -/
inductive ScanOut where
  | found (t : String)
  | enqueue (l : List Ref)
deriving DecidableEq, Repr

/-- The preferred-key pass over a dict (lines 177-185): for each key in
priority order, a present, non-empty-after-strip string value is
returned at once; any other present value is enqueued. -/
def prefScan (store : Store) (fields : List (String × Ref)) : List String → ScanOut
  | [] => ScanOut.enqueue []
  | key :: keys =>
    match lookupField fields key with
    | none => prefScan store fields keys
    | some r =>
      match store[r]? with
      | some (Node.str s) =>
        if pyStrip s = "" then prefScan store fields keys
        else ScanOut.found (pyStrip s)
      | _ =>
        match prefScan store fields keys with
        | ScanOut.found t => ScanOut.found t
        | ScanOut.enqueue l => ScanOut.enqueue (r :: l)

/-- The fallback pass over dict values (lines 187-194) and the list
pass (lines 196-203): a non-empty-after-strip string is returned at
once; dicts and lists are enqueued; everything else is skipped. -/
def valScan (store : Store) : List Ref → ScanOut
  | [] => ScanOut.enqueue []
  | r :: rs =>
    match store[r]? with
    | some (Node.str s) =>
      if pyStrip s = "" then valScan store rs
      else ScanOut.found (pyStrip s)
    | some (Node.obj _) =>
      match valScan store rs with
      | ScanOut.found t => ScanOut.found t
      | ScanOut.enqueue l => ScanOut.enqueue (r :: l)
    | some (Node.arr _) =>
      match valScan store rs with
      | ScanOut.found t => ScanOut.found t
      | ScanOut.enqueue l => ScanOut.enqueue (r :: l)
    | _ => valScan store rs

/-- Processing of a dequeued dict: the preferred-key pass, then the
pass over all values; enqueued references accumulate in order. -/
def dictScan (store : Store) (fields : List (String × Ref)) : ScanOut :=
  match prefScan store fields preferredKeys with
  | ScanOut.found t => ScanOut.found t
  | ScanOut.enqueue l1 =>
    match valScan store (fields.map Prod.snd) with
    | ScanOut.found t => ScanOut.found t
    | ScanOut.enqueue l2 => ScanOut.enqueue (l1 ++ l2)

/-- The `while queue:` loop of `extract_translation` (lines 163-205),
with explicit fuel.  `none` means the fuel ran out (shown impossible
for `extractBound` fuel below); `some r` is the Python return value.
The visited set is the list of already-dequeued references. -/
def extractLoop (store : Store) : Nat → List Ref → List Ref → Option (Option String)
  | 0, _, _ => none
  | _ + 1, [], _ => some none
  | fuel + 1, r :: rest, visited =>
    if r ∈ visited then extractLoop store fuel rest visited
    else
      match store[r]? with
      | some (Node.str s) =>
        if pyStrip s = "" then extractLoop store fuel rest (r :: visited)
        else some (some (pyStrip s))
      | some (Node.obj fields) =>
        match dictScan store fields with
        | ScanOut.found t => some (some t)
        | ScanOut.enqueue l => extractLoop store fuel (rest ++ l) (r :: visited)
      | some (Node.arr items) =>
        match valScan store items with
        | ScanOut.found t => some (some t)
        | ScanOut.enqueue l => extractLoop store fuel (rest ++ l) (r :: visited)
      | _ => extractLoop store fuel rest (r :: visited)

/-- Upper bound on the number of references one loop iteration can
enqueue when it dequeues the given node. -/
def nodeBreadth : Node → Nat
  | Node.obj fields => fields.length + preferredKeys.length
  | Node.arr items => items.length
  | _ => 0

/-- Largest `nodeBreadth` over the store. -/
def maxBreadth (store : Store) : Nat :=
  store.foldr (fun n acc => max (nodeBreadth n) acc) 0

/-- Fuel that the loop can never exhaust (proved below): every
iteration either consumes a queue entry for good or marks one of the at
most `store.length` references visited while enqueueing at most
`maxBreadth store` new entries. -/
def extractBound (store : Store) : Nat :=
  (maxBreadth store + 1) * store.length + 2

/-- Embedding of `extract_translation` (lines 153-205): run the loop on
a queue seeded with the root and an empty visited set. -/
def extract_translation (store : Store) (root : Ref) : Option String :=
  match extractLoop store (extractBound store) [root] [] with
  | some r => r
  | none => none

/-! ## Data model of the prober (lines 30-47) -/

/-- Embedding of the `SampleResult` dataclass. -/
structure SampleResult where
  text : String
  translation : Option String
  success : Bool
  detail : String
deriving DecidableEq, Repr

/-- Embedding of the `EndpointResult` dataclass.  The `elapsed`
wall-clock field is environmental (`time.perf_counter`) and is not
modelled. -/
structure EndpointResult where
  name : String
  base_url : String
  full_url : String
  success : Bool
  status_code : Option Nat
  detail : String
  samples : List SampleResult
deriving DecidableEq, Repr

/-- Embedding of `build_payload` (lines 145-150). -/
structure Payload where
  text : String
  source_lang : String
  target_lang : String
deriving DecidableEq, Repr

def build_payload (text source_lang target_lang : String) : Payload :=
  { text := text, source_lang := source_lang, target_lang := target_lang }

/-! ## Network oracle

`requests.post` is environmental.  The outcome of the i-th request a
probe issues is given by an oracle `net : Nat → ReqResult`: either a
transport-level exception with its message, or a response carrying a
status and, when the body parses as JSON, the parsed value (a store
plus root reference); `jsonBody = none` models `response.json()`
raising `ValueError`. -/

structure HttpResponse where
  status : Nat
  jsonBody : Option (Store × Ref)
deriving DecidableEq, Repr

inductive ReqResult where
  | exn (msg : String)
  | ok (resp : HttpResponse)
deriving DecidableEq, Repr

/-- Python truthiness of an `Optional[str]`: false for `None` and `""`. -/
def truthyOptStr : Option String → Bool
  | none => false
  | some s => s != ""

/-- The string content of an `Optional[str]` as interpolated by an
f-string under a truthiness guard (the guard ensures the `some` case). -/
def optTranslationText : Option String → String
  | some t => t
  | none => ""

/-- The apostrophe character used by the summary f-string. -/
def squote : String := String.singleton (Char.ofNat 39)

/-! ## Endpoint prober (`check_endpoint`, lines 221-342) -/

/-- Mutable loop state of `check_endpoint`: the accumulators declared
at lines 234-238 (`detail` is derived at the end and not part of the
loop state; `total_samples` is constant). -/
structure ProbeState where
  samples : List SampleResult
  status_code : Option Nat
  completed : Nat
  last_exception : Option String
deriving DecidableEq, Repr

def initProbeState : ProbeState :=
  { samples := [], status_code := none, completed := 0, last_exception := none }

/-- One iteration of the `for sample_text in texts:` loop (lines
240-311), acting on the state; the boolean is true when the loop
continues to the next sample and false on `break`. -/
def probeStep (net : Nat → ReqResult) (i : Nat) (sample_text : String)
    (st : ProbeState) : ProbeState × Bool :=
  match net i with
  | ReqResult.exn msg =>
    ({ st with
        samples := st.samples ++
          [{ text := sample_text, translation := none, success := false, detail := msg }],
        last_exception := some msg }, false)
  | ReqResult.ok resp =>
    let st := { st with status_code := some resp.status }
    if resp.status ≠ 200 then
      ({ st with
          samples := st.samples ++
            [{ text := sample_text, translation := none, success := false,
               detail := "HTTP " ++ toString resp.status }] }, false)
    else
      match resp.jsonBody with
      | none =>
        ({ st with
            samples := st.samples ++
              [{ text := sample_text, translation := none, success := false,
                 detail := "Non-JSON response" }] }, false)
      | some (store, root) =>
        let translation := extract_translation store root
        if is_translation_valid sample_text translation then
          ({ st with
              samples := st.samples ++
                [{ text := sample_text, translation := translation, success := true,
                   detail := "OK" }],
              completed := st.completed + 1 }, true)
        else
          ({ st with
              samples := st.samples ++
                [{ text := sample_text, translation := translation, success := false,
                   detail := if truthyOptStr translation then "Translation identical to source"
                             else "Missing translation field" }] }, false)

/-- The whole sample loop: iterate `probeStep`, stopping on `break`. -/
def probeLoop (net : Nat → ReqResult) : List String → Nat → ProbeState → ProbeState
  | [], _, st => st
  | sample_text :: rest, i, st =>
    match probeStep net i sample_text st with
    | (st1, true) => probeLoop net rest (i + 1) st1
    | (st1, false) => st1

/-- Derivation of the summary `detail` (lines 316-331). -/
def summaryDetail (total_samples : Nat) (success : Bool)
    (samples : List SampleResult) (last_exception : Option String) : String :=
  if success then "All " ++ toString total_samples ++ " samples translated"
  else
    match samples.find? (fun s => !s.success) with
    | some failed_sample =>
      let translated_snippet :=
        if truthyOptStr failed_sample.translation then
          " -> " ++ optTranslationText failed_sample.translation
        else ""
      "Sample " ++ squote ++ failed_sample.text ++ squote ++ " failed: "
        ++ failed_sample.detail ++ translated_snippet
    | none =>
      match last_exception with
      | some e => "Request failed: " ++ e
      | none => "Unknown failure"

/-- Embedding of `check_endpoint` (lines 221-342). -/
def check_endpoint (name base_url : String) (texts : List String)
    (net : Nat → ReqResult) : EndpointResult :=
  let normalized := rstripSlashes base_url
  let full_url := normalized ++ "/translate"
  let st := probeLoop net texts 0 initProbeState
  let total_samples := texts.length
  let success := st.completed == total_samples
  let detail := summaryDetail total_samples success st.samples st.last_exception
  { name := name, base_url := base_url, full_url := full_url,
    success := success, status_code := st.status_code,
    detail := detail, samples := st.samples }

/-! ## Exit-code logic of `main` (lines 424-461)

Argument parsing, CSV reading, printing and report writing are
environmental; the reading of the endpoint list is abstracted as a
`ReadOutcome` (`read_endpoints` either raises, caught at lines 427-431,
or yields the list).  A failed optional JSON report write only prints a
warning (line 455) and does not influence the returned code. -/

inductive ReadOutcome where
  | failure (msg : String)
  | ok (endpoints : List (String × String))
deriving Repr

/-- The per-endpoint network environment: `nets k` is the oracle for
the k-th endpoint of the list. -/
def mainModel (read : ReadOutcome) (texts : List String)
    (nets : Nat → Nat → ReqResult) (partial_ok : Bool) : Nat :=
  match read with
  | ReadOutcome.failure _ => 2
  | ReadOutcome.ok endpoints =>
    let results := endpoints.enum.map
      (fun p => check_endpoint p.2.1 p.2.2 texts (nets p.1))
    let overall_success := results.all (fun r => r.success)
    if !overall_success && !partial_ok then 1 else 0

/-- The exit code as the spec words it (§6): a pure function of the
per-endpoint success flags and the allow-partial flag.  This definition
follows the specification text and is compared with `mainModel`. -/
def specExitCode (successes : List Bool) (partial_ok : Bool) : Nat :=
  if successes.all id || partial_ok then 0 else 1

/-! ## Characterization of one loop iteration -/

/-- The `SampleResult` that the i-th loop iteration records for the
given sample text (read off from lines 240-311). -/
def sampleOf (net : Nat → ReqResult) (i : Nat) (sample_text : String) : SampleResult :=
  match net i with
  | ReqResult.exn msg =>
    { text := sample_text, translation := none, success := false, detail := msg }
  | ReqResult.ok resp =>
    if resp.status ≠ 200 then
      { text := sample_text, translation := none, success := false,
        detail := "HTTP " ++ toString resp.status }
    else
      match resp.jsonBody with
      | none =>
        { text := sample_text, translation := none, success := false,
          detail := "Non-JSON response" }
      | some (store, root) =>
        let translation := extract_translation store root
        if is_translation_valid sample_text translation then
          { text := sample_text, translation := translation, success := true, detail := "OK" }
        else
          { text := sample_text, translation := translation, success := false,
            detail := if truthyOptStr translation then "Translation identical to source"
                      else "Missing translation field" }

lemma probeStep_spec (net : Nat → ReqResult) (i : Nat) (t : String) (st : ProbeState) :
    (probeStep net i t st).1.samples = st.samples ++ [sampleOf net i t]
    ∧ (probeStep net i t st).2 = (sampleOf net i t).success
    ∧ (probeStep net i t st).1.completed
        = st.completed + (if (sampleOf net i t).success then 1 else 0)
    ∧ (probeStep net i t st).1.last_exception
        = (match net i with
           | ReqResult.exn msg => some msg
           | ReqResult.ok _ => st.last_exception) := by
  unfold probeStep sampleOf
  cases hnet : net i with
  | exn msg => simp
  | ok resp =>
    by_cases h200 : resp.status = 200
    · simp only [h200, ne_eq, not_true_eq_false, if_false, ite_false, reduceIte]
      cases hj : resp.jsonBody with
      | none => simp
      | some sr =>
        rcases sr with ⟨store, root⟩
        by_cases hv : is_translation_valid t (extract_translation store root) = true
        · simp [hv]
        · simp only [Bool.not_eq_true] at hv
          simp [hv]
    · simp [h200]

lemma probeStep_net_eq (net net' : Nat → ReqResult) (i : Nat) (t : String)
    (st : ProbeState) (h : net' i = net i) :
    probeStep net' i t st = probeStep net i t st := by
  unfold probeStep
  rw [h]

lemma sampleOf_net_eq (net net' : Nat → ReqResult) (i : Nat) (t : String)
    (h : net' i = net i) : sampleOf net' i t = sampleOf net i t := by
  unfold sampleOf
  rw [h]

lemma probeLoop_nil (net : Nat → ReqResult) (i : Nat) (st : ProbeState) :
    probeLoop net [] i st = st := rfl

lemma probeLoop_cons (net : Nat → ReqResult) (t : String) (rest : List String)
    (i : Nat) (st : ProbeState) :
    probeLoop net (t :: rest) i st
      = (if (probeStep net i t st).2 = true
         then probeLoop net rest (i + 1) (probeStep net i t st).1
         else (probeStep net i t st).1) := by
  show (match probeStep net i t st with
        | (st1, true) => probeLoop net rest (i + 1) st1
        | (st1, false) => st1) = _
  rcases hps : probeStep net i t st with ⟨st1, c⟩
  cases c <;> simp

lemma probeLoop_cons_true (net : Nat → ReqResult) (t : String) (rest : List String)
    (i : Nat) (st : ProbeState) (h : (probeStep net i t st).2 = true) :
    probeLoop net (t :: rest) i st = probeLoop net rest (i + 1) (probeStep net i t st).1 := by
  rw [probeLoop_cons, h]
  simp

lemma probeLoop_cons_false (net : Nat → ReqResult) (t : String) (rest : List String)
    (i : Nat) (st : ProbeState) (h : (probeStep net i t st).2 = false) :
    probeLoop net (t :: rest) i st = (probeStep net i t st).1 := by
  rw [probeLoop_cons, h]
  simp

/-! ## Loop invariants -/

/-- Loop invariant behind the `success` flag: as long as the incoming
state only holds successful samples and counts them in `completed`, the
final `completed` hits the target exactly when every sample was
recorded and succeeded. -/
lemma probeLoop_inv (net : Nat → ReqResult) :
    ∀ (texts : List String) (i : Nat) (st : ProbeState),
      (∀ s ∈ st.samples, s.success = true) →
      st.completed = st.samples.length →
      ((probeLoop net texts i st).samples.length ≤ st.samples.length + texts.length)
      ∧ ((probeLoop net texts i st).completed = st.samples.length + texts.length ↔
          ((probeLoop net texts i st).samples.length = st.samples.length + texts.length
           ∧ ∀ s ∈ (probeLoop net texts i st).samples, s.success = true)) := by
  intro texts
  induction texts with
  | nil =>
    intro i st hall hc
    rw [probeLoop_nil]
    refine ⟨by simp, ?_, ?_⟩
    · intro _
      exact ⟨by simp, hall⟩
    · intro _
      simpa using hc
  | cons t rest ih =>
    intro i st hall hc
    obtain ⟨hsm, hcont, hcomp, _⟩ := probeStep_spec net i t st
    by_cases hs : (sampleOf net i t).success = true
    · rw [probeLoop_cons_true net t rest i st (by rw [hcont, hs])]
      have hall1 : ∀ s ∈ (probeStep net i t st).1.samples, s.success = true := by
        rw [hsm]
        intro s hsmem
        rcases List.mem_append.mp hsmem with h | h
        · exact hall s h
        · simp at h; subst h; exact hs
      have hc1 : (probeStep net i t st).1.completed = (probeStep net i t st).1.samples.length := by
        rw [hcomp, hsm, hs, hc]
        simp
      obtain ⟨hle, hiff⟩ := ih (i + 1) (probeStep net i t st).1 hall1 hc1
      have hlen1 : (probeStep net i t st).1.samples.length = st.samples.length + 1 := by
        rw [hsm]; simp
      rw [hlen1] at hle hiff
      constructor
      · simp only [List.length_cons]
        omega
      · have e1 : st.samples.length + 1 + rest.length = st.samples.length + (t :: rest).length := by
          simp only [List.length_cons]
          omega
        rw [e1] at hiff
        exact hiff
    · have hs0 : (sampleOf net i t).success = false := by simpa using hs
      rw [probeLoop_cons_false net t rest i st (by rw [hcont, hs0])]
      constructor
      · rw [hsm]
        simp only [List.length_append, List.length_cons, List.length_nil]
        omega
      · constructor
        · intro h
          rw [hcomp, hs0, hc] at h
          simp only [List.length_cons, Bool.false_eq_true, if_false] at h
          omega
        · intro ⟨_, hall2⟩
          exfalso
          have : (sampleOf net i t).success = true := by
            apply hall2
            rw [hsm]
            simp
          rw [hs0] at this
          exact Bool.false_ne_true this

/-- If every recorded sample succeeded, the loop never hit `break`, so
it recorded one sample per text. -/
lemma probeLoop_all_success (net : Nat → ReqResult) :
    ∀ (texts : List String) (i : Nat) (st : ProbeState),
      (∀ s ∈ (probeLoop net texts i st).samples, s.success = true) →
      (probeLoop net texts i st).completed = st.completed + texts.length ∧
      (probeLoop net texts i st).samples.length = st.samples.length + texts.length := by
  intro texts
  induction texts with
  | nil =>
    intro i st _
    simp [probeLoop_nil]
  | cons t rest ih =>
    intro i st hall
    obtain ⟨hsm, hcont, hcomp, _⟩ := probeStep_spec net i t st
    by_cases hs : (sampleOf net i t).success = true
    · rw [probeLoop_cons_true net t rest i st (by rw [hcont, hs])] at hall ⊢
      obtain ⟨h1, h2⟩ := ih (i + 1) (probeStep net i t st).1 hall
      rw [hcomp, hs] at h1
      rw [hsm] at h2
      simp only [List.length_append, List.length_cons, List.length_nil] at h1 h2 ⊢
      simp at h1
      constructor
      · omega
      · omega
    · exfalso
      have hs0 : (sampleOf net i t).success = false := by simpa using hs
      rw [probeLoop_cons_false net t rest i st (by rw [hcont, hs0])] at hall
      have : (sampleOf net i t).success = true := by
        apply hall
        rw [hsm]
        simp
      rw [hs0] at this
      exact Bool.false_ne_true this

/-- Short-circuit characterization: when the first k samples (relative
to offset i) succeed and sample k fails, the loop records exactly those
k successes followed by the failing sample, and `completed` grows by k. -/
lemma probeLoop_first_fail (net : Nat → ReqResult) :
    ∀ (k : Nat) (texts : List String) (i : Nat) (st : ProbeState),
      k < texts.length →
      (∀ j, j < k → (sampleOf net (i + j) (texts.getD j "")).success = true) →
      (sampleOf net (i + k) (texts.getD k "")).success = false →
      (probeLoop net texts i st).samples
        = st.samples
          ++ ((List.range k).map fun j => sampleOf net (i + j) (texts.getD j ""))
          ++ [sampleOf net (i + k) (texts.getD k "")]
      ∧ (probeLoop net texts i st).completed = st.completed + k := by
  intro k
  induction k with
  | zero =>
    intro texts i st hk hprev hfail
    match texts with
    | [] => simp at hk
    | t :: rest =>
      simp only [List.getD_cons_zero, Nat.add_zero] at hfail
      obtain ⟨hsm, hcont, hcomp, _⟩ := probeStep_spec net i t st
      rw [probeLoop_cons_false net t rest i st (by rw [hcont, hfail])]
      refine ⟨?_, ?_⟩
      · rw [hsm]
        simp
      · rw [hcomp, hfail]
        simp
  | succ k ihk =>
    intro texts i st hk hprev hfail
    match texts with
    | [] => simp at hk
    | t :: rest =>
      obtain ⟨hsm, hcont, hcomp, _⟩ := probeStep_spec net i t st
      have h0 : (sampleOf net i t).success = true := by
        have := hprev 0 (Nat.succ_pos k)
        simpa using this
      rw [probeLoop_cons_true net t rest i st (by rw [hcont, h0])]
      have hprev1 : ∀ j, j < k → (sampleOf net (i + 1 + j) (rest.getD j "")).success = true := by
        intro j hj
        have := hprev (j + 1) (by omega)
        have e : i + (j + 1) = i + 1 + j := by omega
        rw [e] at this
        simpa using this
      have hfail1 : (sampleOf net (i + 1 + k) (rest.getD k "")).success = false := by
        have e : i + (k + 1) = i + 1 + k := by omega
        rw [e] at hfail
        simpa using hfail
      obtain ⟨h1, h2⟩ := ihk rest (i + 1) (probeStep net i t st).1
        (by simpa using hk) hprev1 hfail1
      constructor
      · rw [h1, hsm]
        rw [List.range_succ_eq_map]
        simp only [List.map_cons, List.map_map]
        have emap : ((List.range k).map fun j => sampleOf net (i + 1 + j) (rest.getD j ""))
            = (List.range k).map ((fun j => sampleOf net (i + j) ((t :: rest).getD j "")) ∘ Nat.succ) := by
          apply List.map_congr_left
          intro j _
          simp only [Function.comp]
          have e : i + (j + 1) = i + 1 + j := by omega
          rw [List.getD_cons_succ, e]
        rw [emap]
        have elast : sampleOf net (i + 1 + k) (rest.getD k "")
            = sampleOf net (i + (k + 1)) ((t :: rest).getD (k + 1) "") := by
          have e : i + (k + 1) = i + 1 + k := by omega
          rw [List.getD_cons_succ, e]
        rw [elast]
        simp
      · rw [h2, hcomp, h0]
        simp
        omega

/-- The loop only consults the oracle at the indices of attempted
samples: with a failure at offset k, any oracle agreeing on indices
`i .. i+k` produces the identical final state. -/
lemma probeLoop_net_agree (net net' : Nat → ReqResult) :
    ∀ (k : Nat) (texts : List String) (i : Nat) (st : ProbeState),
      k < texts.length →
      (∀ j, j < k → (sampleOf net (i + j) (texts.getD j "")).success = true) →
      (sampleOf net (i + k) (texts.getD k "")).success = false →
      (∀ j, j ≤ k → net' (i + j) = net (i + j)) →
      probeLoop net' texts i st = probeLoop net texts i st := by
  intro k
  induction k with
  | zero =>
    intro texts i st hk hprev hfail hagree
    match texts with
    | [] => simp at hk
    | t :: rest =>
      have hi : net' i = net i := by
        have := hagree 0 (Nat.le_refl 0)
        simpa using this
      simp only [List.getD_cons_zero, Nat.add_zero] at hfail
      obtain ⟨_, hcont, _, _⟩ := probeStep_spec net i t st
      rw [probeLoop_cons_false net t rest i st (by rw [hcont, hfail]),
        probeLoop_cons_false net' t rest i st
          (by rw [probeStep_net_eq net net' i t st hi, hcont, hfail]),
        probeStep_net_eq net net' i t st hi]
  | succ k ihk =>
    intro texts i st hk hprev hfail hagree
    match texts with
    | [] => simp at hk
    | t :: rest =>
      have hi : net' i = net i := by
        have := hagree 0 (Nat.zero_le _)
        simpa using this
      have h0 : (sampleOf net i t).success = true := by
        have := hprev 0 (Nat.succ_pos k)
        simpa using this
      obtain ⟨_, hcont, _, _⟩ := probeStep_spec net i t st
      rw [probeLoop_cons_true net t rest i st (by rw [hcont, h0]),
        probeLoop_cons_true net' t rest i st
          (by rw [probeStep_net_eq net net' i t st hi, hcont, h0]),
        probeStep_net_eq net net' i t st hi]
      apply ihk rest (i + 1) (probeStep net i t st).1 (by simpa using hk)
      · intro j hj
        have := hprev (j + 1) (by omega)
        have e : i + (j + 1) = i + 1 + j := by omega
        rw [e] at this
        simpa using this
      · have e : i + (k + 1) = i + 1 + k := by omega
        rw [e] at hfail
        simpa using hfail
      · intro j hj
        have := hagree (j + 1) (by omega)
        have e : i + (j + 1) = i + 1 + j := by omega
        rw [e] at this
        exact this

/-! ## Termination of the extractor -/

lemma list_getElem?_mem {α : Type} : ∀ (l : List α) (r : Nat) (a : α), l[r]? = some a → a ∈ l := by
  intro l
  induction l with
  | nil => intro r a h; simp at h
  | cons x xs ih =>
    intro r a h
    match r with
    | 0 => simp at h; simp [h]
    | r + 1 =>
      simp only [List.getElem?_cons_succ] at h
      exact List.mem_cons_of_mem x (ih r a h)

lemma list_getElem?_lt {α : Type} : ∀ (l : List α) (r : Nat) (a : α), l[r]? = some a → r < l.length := by
  intro l
  induction l with
  | nil => intro r a h; simp at h
  | cons x xs ih =>
    intro r a h
    match r with
    | 0 => simp
    | r + 1 =>
      simp only [List.getElem?_cons_succ] at h
      have := ih r a h
      simp
      omega

lemma nodeBreadth_le_maxBreadth (store : Store) (n : Node) (hn : n ∈ store) :
    nodeBreadth n ≤ maxBreadth store := by
  induction store with
  | nil => simp at hn
  | cons m rest ih =>
    rcases List.mem_cons.mp hn with h | h
    · subst h
      exact le_max_left _ _
    · exact le_trans (ih h) (le_max_right _ _)

lemma prefScan_enqueue_length (store : Store) (fields : List (String × Ref)) :
    ∀ (keys : List String) (l : List Ref),
      prefScan store fields keys = ScanOut.enqueue l → l.length ≤ keys.length := by
  intro keys
  induction keys with
  | nil =>
    intro l h
    simp only [prefScan] at h
    cases h
    simp
  | cons key keys ih =>
    intro l h
    simp only [prefScan] at h
    split at h
    · have := ih l h
      simp only [List.length_cons]
      omega
    · split at h
      · split at h
        · have := ih l h
          simp only [List.length_cons]
          omega
        · cases h
      · split at h
        · cases h
        · cases h
          rename_i hps
          have := ih _ hps
          simp only [List.length_cons]
          omega

lemma valScan_enqueue_length (store : Store) :
    ∀ (refs : List Ref) (l : List Ref),
      valScan store refs = ScanOut.enqueue l → l.length ≤ refs.length := by
  intro refs
  induction refs with
  | nil =>
    intro l h
    simp only [valScan] at h
    cases h
    simp
  | cons r rs ih =>
    intro l h
    simp only [valScan] at h
    split at h
    · split at h
      · have := ih l h
        simp only [List.length_cons]
        omega
      · cases h
    · split at h
      · cases h
      · cases h
        rename_i hvs
        have := ih _ hvs
        simp only [List.length_cons]
        omega
    · split at h
      · cases h
      · cases h
        rename_i hvs
        have := ih _ hvs
        simp only [List.length_cons]
        omega
    · have := ih l h
      simp only [List.length_cons]
      omega

lemma dictScan_enqueue_length (store : Store) (fields : List (String × Ref)) (l : List Ref)
    (h : dictScan store fields = ScanOut.enqueue l) :
    l.length ≤ nodeBreadth (Node.obj fields) := by
  unfold dictScan at h
  cases hps : prefScan store fields preferredKeys with
  | found t => rw [hps] at h; cases h
  | enqueue l1 =>
    rw [hps] at h
    cases hvs : valScan store (fields.map Prod.snd) with
    | found t => rw [hvs] at h; cases h
    | enqueue l2 =>
      rw [hvs] at h
      cases h
      have h1 := prefScan_enqueue_length store fields preferredKeys l1 hps
      have h2 := valScan_enqueue_length store (fields.map Prod.snd) l2 hvs
      simp only [List.length_map] at h2
      simp only [List.length_append, nodeBreadth]
      have hpk : preferredKeys.length = 4 := rfl
      omega

/-- Number of valid references not yet visited. -/
def unvisitedCount (store : Store) (visited : List Ref) : Nat :=
  ((Finset.range store.length).filter (fun r => r ∉ visited)).card

lemma unvisitedCount_cons_le (store : Store) (visited : List Ref) (r : Ref) :
    unvisitedCount store (r :: visited) ≤ unvisitedCount store visited := by
  apply Finset.card_le_card
  intro x hx
  simp only [Finset.mem_filter, Finset.mem_range, List.mem_cons] at hx ⊢
  tauto

lemma unvisitedCount_cons_lt (store : Store) (visited : List Ref) (r : Ref)
    (hr : r < store.length) (hv : r ∉ visited) :
    unvisitedCount store (r :: visited) + 1 = unvisitedCount store visited := by
  unfold unvisitedCount
  have h : (Finset.range store.length).filter (fun x => x ∉ r :: visited)
      = ((Finset.range store.length).filter (fun x => x ∉ visited)).erase r := by
    ext x
    simp only [Finset.mem_filter, Finset.mem_range, List.mem_cons, Finset.mem_erase]
    constructor
    · intro ⟨hx, hmem⟩
      push_neg at hmem
      exact ⟨hmem.1, hx, hmem.2⟩
    · intro ⟨hne, hx, hmem⟩
      refine ⟨hx, ?_⟩
      push_neg
      exact ⟨hne, hmem⟩
  rw [h]
  apply Finset.card_erase_add_one
  simp only [Finset.mem_filter, Finset.mem_range]
  exact ⟨hr, hv⟩

/-- The extractor loop never exhausts fuel exceeding its measure: each
iteration either drops a queue entry or visits a fresh valid reference
while enqueueing at most `maxBreadth store` new entries. -/
lemma extractLoop_isSome (store : Store) :
    ∀ (fuel : Nat) (q visited : List Ref),
      (maxBreadth store + 1) * unvisitedCount store visited + q.length < fuel →
      (extractLoop store fuel q visited).isSome = true := by
  intro fuel
  induction fuel with
  | zero =>
    intro q visited h
    omega
  | succ f ih =>
    intro q visited h
    match q with
    | [] => simp [extractLoop]
    | r :: rest =>
      rw [extractLoop]
      simp only [List.length_cons] at h
      by_cases hv : r ∈ visited
      · rw [if_pos hv]
        apply ih
        omega
      · rw [if_neg hv]
        have hmono := unvisitedCount_cons_le store visited r
        have hK : (maxBreadth store + 1) * unvisitedCount store (r :: visited)
            ≤ (maxBreadth store + 1) * unvisitedCount store visited :=
          Nat.mul_le_mul_left _ hmono
        split
        · rename_i s hg
          split
          · apply ih
            revert h hK
            generalize (maxBreadth store + 1) * unvisitedCount store (r :: visited) = P
            generalize (maxBreadth store + 1) * unvisitedCount store visited = Q
            intro h hK
            omega
          · simp
        · rename_i fields hg
          have hrlt : r < store.length := list_getElem?_lt store r _ hg
          have hdec := unvisitedCount_cons_lt store visited r hrlt hv
          have hnb : nodeBreadth (Node.obj fields) ≤ maxBreadth store :=
            nodeBreadth_le_maxBreadth store _ (list_getElem?_mem store r _ hg)
          have hmul : (maxBreadth store + 1) * unvisitedCount store visited
              = (maxBreadth store + 1) * unvisitedCount store (r :: visited)
                + (maxBreadth store + 1) := by
            rw [← hdec, Nat.mul_add, Nat.mul_one]
          split
          · simp
          · rename_i l hds
            apply ih
            have hlen : l.length ≤ nodeBreadth (Node.obj fields) :=
              dictScan_enqueue_length store fields l hds
            rw [hmul] at h
            simp only [List.length_append]
            simp only [nodeBreadth] at hlen hnb
            revert h
            generalize (maxBreadth store + 1) * unvisitedCount store (r :: visited) = P
            intro h
            omega
        · rename_i items hg
          have hrlt : r < store.length := list_getElem?_lt store r _ hg
          have hdec := unvisitedCount_cons_lt store visited r hrlt hv
          have hnb : nodeBreadth (Node.arr items) ≤ maxBreadth store :=
            nodeBreadth_le_maxBreadth store _ (list_getElem?_mem store r _ hg)
          have hmul : (maxBreadth store + 1) * unvisitedCount store visited
              = (maxBreadth store + 1) * unvisitedCount store (r :: visited)
                + (maxBreadth store + 1) := by
            rw [← hdec, Nat.mul_add, Nat.mul_one]
          split
          · simp
          · rename_i l hvs
            apply ih
            have hlen : l.length ≤ items.length :=
              valScan_enqueue_length store items l hvs
            rw [hmul] at h
            simp only [List.length_append]
            simp only [nodeBreadth] at hnb
            revert h
            generalize (maxBreadth store + 1) * unvisitedCount store (r :: visited) = P
            intro h
            omega
        · apply ih
          revert h hK
          generalize (maxBreadth store + 1) * unvisitedCount store (r :: visited) = P
          generalize (maxBreadth store + 1) * unvisitedCount store visited = Q
          intro h hK
          omega

/-! ## Every string the extractor returns is stripped and non-empty -/

lemma prefScan_found_ne (store : Store) (fields : List (String × Ref)) :
    ∀ (keys : List String) (t : String),
      prefScan store fields keys = ScanOut.found t → t ≠ "" := by
  intro keys
  induction keys with
  | nil =>
    intro t h
    simp only [prefScan] at h
    cases h
  | cons key keys ih =>
    intro t h
    simp only [prefScan] at h
    split at h
    · exact ih t h
    · split at h
      · split at h
        · exact ih t h
        · cases h
          rename_i hstrip
          exact hstrip
      · split at h
        · cases h
          rename_i hps
          exact ih _ hps
        · cases h

lemma valScan_found_ne (store : Store) :
    ∀ (refs : List Ref) (t : String),
      valScan store refs = ScanOut.found t → t ≠ "" := by
  intro refs
  induction refs with
  | nil =>
    intro t h
    simp only [valScan] at h
    cases h
  | cons r rs ih =>
    intro t h
    simp only [valScan] at h
    split at h
    · split at h
      · exact ih t h
      · cases h
        rename_i hstrip
        exact hstrip
    · split at h
      · cases h
        rename_i hvs
        exact ih _ hvs
      · cases h
    · split at h
      · cases h
        rename_i hvs
        exact ih _ hvs
      · cases h
    · exact ih t h

lemma dictScan_found_ne (store : Store) (fields : List (String × Ref)) (t : String)
    (h : dictScan store fields = ScanOut.found t) : t ≠ "" := by
  unfold dictScan at h
  split at h
  · cases h
    rename_i hps
    exact prefScan_found_ne store fields preferredKeys _ hps
  · split at h
    · cases h
      rename_i hvs
      exact valScan_found_ne store _ _ hvs
    · cases h

lemma extractLoop_found_ne (store : Store) :
    ∀ (fuel : Nat) (q visited : List Ref) (t : String),
      extractLoop store fuel q visited = some (some t) → t ≠ "" := by
  intro fuel
  induction fuel with
  | zero =>
    intro q visited t h
    simp [extractLoop] at h
  | succ f ih =>
    intro q visited t h
    match q with
    | [] => simp [extractLoop] at h
    | r :: rest =>
      rw [extractLoop] at h
      by_cases hv : r ∈ visited
      · rw [if_pos hv] at h
        exact ih rest visited t h
      · rw [if_neg hv] at h
        split at h
        · split at h
          · exact ih _ _ t h
          · cases h
            rename_i hstrip
            exact hstrip
        · split at h
          · cases h
            rename_i hds
            exact dictScan_found_ne store _ _ hds
          · exact ih _ _ t h
        · split at h
          · cases h
            rename_i hvs
            exact valScan_found_ne store _ _ hvs
          · exact ih _ _ t h
        · exact ih _ _ t h

/-- The extractor never returns the empty string: every return site
strips the string and checks it is non-empty first. -/
lemma extract_translation_ne (store : Store) (root : Ref) (t : String)
    (h : extract_translation store root = some t) : t ≠ "" := by
  unfold extract_translation at h
  split at h
  · rename_i r hr
    subst h
    exact extractLoop_found_ne store (extractBound store) [root] [] t hr
  · cases h

/-! ## The preferred-key pass -/

/-- Whether a reference points at a string that is non-empty after
stripping (the condition under which the preferred-key pass returns). -/
def isNonemptyStrRef (store : Store) (r : Ref) : Bool :=
  match store[r]? with
  | some (Node.str s) => if pyStrip s = "" then false else true
  | _ => false

/-- If key number i (in priority order) is the first whose value is a
non-empty stripped string, the preferred-key pass returns exactly that
string, stripped. -/
lemma prefScan_found_at (store : Store) (fields : List (String × Ref)) :
    ∀ (keys : List String) (i : Nat) (r : Ref) (s : String),
      i < keys.length →
      lookupField fields (keys.getD i "") = some r →
      store[r]? = some (Node.str s) →
      pyStrip s ≠ "" →
      (∀ j, j < i → ∀ r1, lookupField fields (keys.getD j "") = some r1 →
        isNonemptyStrRef store r1 = false) →
      prefScan store fields keys = ScanOut.found (pyStrip s) := by
  intro keys
  induction keys with
  | nil =>
    intro i r s hi
    simp at hi
  | cons key keys ih =>
    intro i r s hi hlook hg hstrip hprev
    match i with
    | 0 =>
      simp only [List.getD_cons_zero] at hlook
      simp only [prefScan, hlook, hg]
      rw [if_neg hstrip]
    | i + 1 =>
      simp only [List.getD_cons_succ] at hlook
      have h0 : ∀ r1, lookupField fields key = some r1 → isNonemptyStrRef store r1 = false := by
        intro r1 h1
        have := hprev 0 (Nat.succ_pos i) r1
        simp only [List.getD_cons_zero] at this
        exact this h1
      have hprev1 : ∀ j, j < i → ∀ r1, lookupField fields (keys.getD j "") = some r1 →
          isNonemptyStrRef store r1 = false := by
        intro j hj r1 h1
        have := hprev (j + 1) (by omega) r1
        simp only [List.getD_cons_succ] at this
        exact this h1
      have hrec : prefScan store fields keys = ScanOut.found (pyStrip s) :=
        ih i r s (by simpa using hi) hlook hg hstrip hprev1
      simp only [prefScan]
      cases hl : lookupField fields key with
      | none =>
        simp only [hl]
        exact hrec
      | some r1 =>
        have hne := h0 r1 hl
        unfold isNonemptyStrRef at hne
        simp only [hl]
        cases hg1 : store[r1]? with
        | none =>
          simp only [hg1, hrec]
        | some node =>
          cases node with
          | str s1 =>
            simp only [hg1] at hne
            simp only [hg1]
            by_cases hstrip1 : pyStrip s1 = ""
            · rw [if_pos hstrip1]
              exact hrec
            · rw [if_neg hstrip1] at hne
              cases hne
          | scalar => simp only [hg1, hrec]
          | obj f => simp only [hg1, hrec]
          | arr it => simp only [hg1, hrec]

/-! ## Miscellaneous helpers -/

lemma find?_first_fail :
    ∀ (pre : List SampleResult) (fs : SampleResult) (post : List SampleResult),
      (∀ s ∈ pre, s.success = true) → fs.success = false →
      (pre ++ fs :: post).find? (fun s => !s.success) = some fs := by
  intro pre
  induction pre with
  | nil =>
    intro fs post _ hfs
    simp only [List.nil_append]
    apply List.find?_cons_of_pos
    simp [hfs]
  | cons x xs ih =>
    intro fs post hpre hfs
    simp only [List.cons_append]
    rw [List.find?_cons_of_neg]
    · exact ih fs post (fun s hs => hpre s (List.mem_cons_of_mem x hs)) hfs
    · have := hpre x (List.mem_cons_self x xs)
      simp [this]

/-- A step of `extract_translation` on a root obj whose dict scan finds
a string. -/
lemma extract_translation_of_dictScan_found (store : Store) (root : Ref)
    (fields : List (String × Ref)) (t : String)
    (hroot : store[root]? = some (Node.obj fields))
    (hds : dictScan store fields = ScanOut.found t) :
    extract_translation store root = some t := by
  unfold extract_translation extractBound
  have e2 : (maxBreadth store + 1) * store.length + 2
      = ((maxBreadth store + 1) * store.length + 1) + 1 := rfl
  rw [e2, extractLoop]
  have hnv : root ∉ ([] : List Ref) := List.not_mem_nil root
  rw [if_neg hnv]
  simp only [hroot, hds]

/-- The fields of `check_endpoint` in terms of the final loop state. -/
lemma check_endpoint_samples (name base_url : String) (texts : List String)
    (net : Nat → ReqResult) :
    (check_endpoint name base_url texts net).samples
      = (probeLoop net texts 0 initProbeState).samples := rfl

lemma check_endpoint_success_def (name base_url : String) (texts : List String)
    (net : Nat → ReqResult) :
    (check_endpoint name base_url texts net).success
      = ((probeLoop net texts 0 initProbeState).completed == texts.length) := rfl

lemma check_endpoint_detail_def (name base_url : String) (texts : List String)
    (net : Nat → ReqResult) :
    (check_endpoint name base_url texts net).detail
      = summaryDetail texts.length
          ((probeLoop net texts 0 initProbeState).completed == texts.length)
          (probeLoop net texts 0 initProbeState).samples
          (probeLoop net texts 0 initProbeState).last_exception := rfl

/-! ## Claims -/

/-- C1: for every call to `check_endpoint` with a configured list of
sample texts, the returned `EndpointResult` satisfies
`samples.length ≤ texts.length`, and `success` is true iff
`samples.length = texts.length` and every recorded `SampleResult` has
`success = true`. -/
theorem check_endpoint_sample_invariant (name base_url : String) (texts : List String)
    (net : Nat → ReqResult) :
    (check_endpoint name base_url texts net).samples.length ≤ texts.length
    ∧ ((check_endpoint name base_url texts net).success = true ↔
        ((check_endpoint name base_url texts net).samples.length = texts.length
         ∧ ∀ s ∈ (check_endpoint name base_url texts net).samples, s.success = true)) := by
  have hinit1 : ∀ s ∈ initProbeState.samples, s.success = true := by
    simp [initProbeState]
  have hinit2 : initProbeState.completed = initProbeState.samples.length := by
    simp [initProbeState]
  obtain ⟨hle, hiff⟩ := probeLoop_inv net texts 0 initProbeState hinit1 hinit2
  simp only [initProbeState, List.length_nil, Nat.zero_add] at hle hiff
  rw [check_endpoint_samples, check_endpoint_success_def, beq_iff_eq]
  exact ⟨hle, hiff⟩

/-- C1 witness: a concrete instantiation of the invariant. -/
theorem check_endpoint_sample_invariant_witness :
    (check_endpoint "Alpha" "http://a.test" ["Hello"] (fun _ => ReqResult.exn "boom")).samples.length ≤ 1 :=
  (check_endpoint_sample_invariant "Alpha" "http://a.test" ["Hello"]
    (fun _ => ReqResult.exn "boom")).1

/-- C2 counterexample: a candidate consisting of a single blank is
neither absent nor empty and its normalization differs from that of the
source "Hello", yet `is_translation_valid` returns false (the code
additionally rejects candidates that normalize to the empty string,
which the claim as stated does not allow). -/
theorem is_translation_valid_claim_counterexample :
    is_translation_valid "Hello" (some " ") = false
    ∧ (some " " : Option String) ≠ (none : Option String)
    ∧ (" " : String) ≠ ""
    ∧ normalizeText "Hello" ≠ normalizeText " " := by
  refine ⟨by decide, by decide, by decide, by decide⟩

/-- C2 (amended): `is_translation_valid` returns false when the
candidate is absent or empty, and also when the candidate normalizes to
the empty string (a whitespace-only candidate); otherwise it returns
true iff the normalized candidate differs from the normalized source. -/
theorem is_translation_valid_amended (source_text : String) :
    is_translation_valid source_text none = false
    ∧ is_translation_valid source_text (some "") = false
    ∧ ∀ t : String, t ≠ "" →
        (is_translation_valid source_text (some t) = true ↔
          (normalizeText t ≠ "" ∧ normalizeText source_text ≠ normalizeText t)) := by
  refine ⟨rfl, rfl, ?_⟩
  intro t ht
  simp only [is_translation_valid]
  rw [if_neg ht]
  by_cases hnt : normalizeText t = ""
  · rw [if_pos hnt]
    simp [hnt]
  · rw [if_neg hnt]
    rw [bne_iff_ne]
    constructor
    · intro h
      exact ⟨hnt, h⟩
    · intro ⟨_, h⟩
      exact h

/-- C2 witness: the amended equivalence at a genuinely translated
candidate. -/
theorem is_translation_valid_amended_witness :
    ("你好" : String) ≠ "" ∧ is_translation_valid "Hello" (some "你好") = true :=
  ⟨by decide,
    ((is_translation_valid_amended "Hello").2.2 "你好" (by decide)).mpr (by decide)⟩

/-- C3: on every store (including self-referential and cyclic ones) the
extractor loop terminates within the `extractBound` fuel — it reaches a
Python `return` rather than exhausting the fuel — and
`extract_translation` is exactly the returned value (the first valid
string found by the traversal, or `none` once the queue is empty). -/
theorem extract_translation_terminates (store : Store) (root : Ref) :
    extractLoop store (extractBound store) [root] [] = some (extract_translation store root) := by
  have hU : unvisitedCount store [] ≤ store.length := by
    unfold unvisitedCount
    calc ((Finset.range store.length).filter fun r => r ∉ ([] : List Ref)).card
        ≤ (Finset.range store.length).card := Finset.card_filter_le _ _
      _ = store.length := Finset.card_range _
  have hm : (maxBreadth store + 1) * unvisitedCount store []
      ≤ (maxBreadth store + 1) * store.length := Nat.mul_le_mul_left _ hU
  have h : (extractLoop store (extractBound store) [root] []).isSome = true := by
    apply extractLoop_isSome
    unfold extractBound
    simp only [List.length_cons, List.length_nil]
    revert hm
    generalize (maxBreadth store + 1) * unvisitedCount store [] = P
    generalize (maxBreadth store + 1) * store.length = Q
    intro hm
    omega
  unfold extract_translation
  cases he : extractLoop store (extractBound store) [root] [] with
  | none =>
    rw [he] at h
    simp at h
  | some r =>
    rfl

/-- C4: when the root of the document is a mapping and key number i of
the priority list `data, text, result, translation` is the first
preferred key present whose value is a string that is non-empty after
stripping, the extractor returns exactly that string, stripped,
regardless of any non-preferred keys. -/
theorem extract_translation_preferred_key (store : Store) (root : Ref)
    (fields : List (String × Ref)) (i : Nat) (r : Ref) (s : String)
    (hroot : store[root]? = some (Node.obj fields))
    (hi : i < preferredKeys.length)
    (hlook : lookupField fields (preferredKeys.getD i "") = some r)
    (hstr : store[r]? = some (Node.str s))
    (hne : pyStrip s ≠ "")
    (hfirst : ∀ j, j < i → ∀ r1, lookupField fields (preferredKeys.getD j "") = some r1 →
      isNonemptyStrRef store r1 = false) :
    extract_translation store root = some (pyStrip s) := by
  have hps := prefScan_found_at store fields preferredKeys i r s hi hlook hstr hne hfirst
  have hds : dictScan store fields = ScanOut.found (pyStrip s) := by
    unfold dictScan
    rw [hps]
  exact extract_translation_of_dictScan_found store root fields (pyStrip s) hroot hds

/-- Concrete store for the C4 witness: the preferred key "data" maps to
a scalar, "text" to a paddable string, and the result is the stripped
"text" value. -/
def storeC4 : Store := [Node.obj [("data", 1), ("text", 2)], Node.scalar, Node.str " Bonjour "]

/-- C4 witness: the priority rule applied to `storeC4`. -/
theorem extract_translation_preferred_key_witness :
    extract_translation storeC4 0 = some (pyStrip " Bonjour ") := by
  apply extract_translation_preferred_key storeC4 0 [("data", 1), ("text", 2)] 1 2 " Bonjour "
    rfl (by decide) rfl rfl (by decide)
  intro j hj r1 hr1
  have hj0 : j = 0 := by omega
  subst hj0
  simp only [preferredKeys, List.getD_cons_zero, lookupField] at hr1
  simp at hr1
  subst hr1
  decide

/-- C9: probing with an empty sample list issues no request (the result
does not depend on the network oracle) and yields a successful result
with detail "All 0 samples translated", no samples and no status code. -/
theorem check_endpoint_empty_texts (name base_url : String) (net net' : Nat → ReqResult) :
    check_endpoint name base_url [] net = check_endpoint name base_url [] net'
    ∧ (check_endpoint name base_url [] net).success = true
    ∧ (check_endpoint name base_url [] net).detail = "All 0 samples translated"
    ∧ (check_endpoint name base_url [] net).samples = []
    ∧ (check_endpoint name base_url [] net).status_code = none :=
  ⟨rfl, rfl, rfl, rfl, rfl⟩

/-- A string all of whose characters are whitespace normalizes to the
empty string. -/
lemma normalizeText_whitespace (t : String)
    (h : ∀ c ∈ t.data, c.isWhitespace = true) : normalizeText t = "" := by
  unfold normalizeText removeWhitespace
  have hf : t.data.filter (fun c => !c.isWhitespace) = [] := by
    rw [List.filter_eq_nil_iff]
    intro a ha
    simp [h a ha]
  rw [hf]
  rfl

/-- C10: a non-empty candidate consisting only of whitespace is always
rejected, because it normalizes to the empty string — even though that
normalization differs from the normalized source in general. -/
theorem is_translation_valid_whitespace_only (source_text t : String)
    (hne : t ≠ "") (hws : ∀ c ∈ t.data, c.isWhitespace = true) :
    is_translation_valid source_text (some t) = false
    ∧ normalizeText t = "" := by
  have hnorm := normalizeText_whitespace t hws
  refine ⟨?_, hnorm⟩
  simp only [is_translation_valid]
  rw [if_neg hne, if_pos hnorm]

/-- C10 witness: the single-blank candidate against source "Hello". -/
theorem is_translation_valid_whitespace_only_witness :
    is_translation_valid "Hello" (some " ") = false ∧ normalizeText " " = "" :=
  is_translation_valid_whitespace_only "Hello" " " (by decide) (by decide)

/-- C5: if the samples at indices 0..k-1 succeed and the sample at
index k fails (1-indexed: sample k+1 is the first failure, by transport
error, non-200 status, non-JSON body or failed validation), then the
recorded samples are exactly the k successes followed by the failing
sample — k+1 entries, nothing afterwards — the endpoint result is
unsuccessful, and the probe never consults the oracle beyond index k. -/
theorem check_endpoint_short_circuit (name base_url : String) (texts : List String)
    (net : Nat → ReqResult) (k : Nat)
    (hk : k < texts.length)
    (hprev : ∀ j, j < k → (sampleOf net j (texts.getD j "")).success = true)
    (hfail : (sampleOf net k (texts.getD k "")).success = false) :
    (check_endpoint name base_url texts net).samples
      = ((List.range k).map fun j => sampleOf net j (texts.getD j ""))
        ++ [sampleOf net k (texts.getD k "")]
    ∧ (check_endpoint name base_url texts net).samples.length = k + 1
    ∧ (∀ s ∈ (List.range k).map fun j => sampleOf net j (texts.getD j ""), s.success = true)
    ∧ (check_endpoint name base_url texts net).success = false
    ∧ ∀ net' : Nat → ReqResult, (∀ j, j ≤ k → net' j = net j) →
        check_endpoint name base_url texts net' = check_endpoint name base_url texts net := by
  have hprev0 : ∀ j, j < k → (sampleOf net (0 + j) (texts.getD j "")).success = true := by
    intro j hj
    rw [Nat.zero_add]
    exact hprev j hj
  have hfail0 : (sampleOf net (0 + k) (texts.getD k "")).success = false := by
    rw [Nat.zero_add]
    exact hfail
  obtain ⟨h1, h2⟩ := probeLoop_first_fail net k texts 0 initProbeState hk hprev0 hfail0
  have his : initProbeState.samples = [] := rfl
  have hic : initProbeState.completed = 0 := rfl
  simp only [his, hic, Nat.zero_add, List.nil_append] at h1 h2
  have hsamples : (check_endpoint name base_url texts net).samples
      = ((List.range k).map fun j => sampleOf net j (texts.getD j ""))
        ++ [sampleOf net k (texts.getD k "")] := by
    rw [check_endpoint_samples]
    exact h1
  refine ⟨hsamples, ?_, ?_, ?_, ?_⟩
  · rw [hsamples]
    simp
  · intro s hs
    rcases List.mem_map.mp hs with ⟨j, hj, rfl⟩
    exact hprev j (List.mem_range.mp hj)
  · rw [check_endpoint_success_def, h2]
    have : k ≠ texts.length := by omega
    simpa using this
  · intro net' hagree
    have hagree0 : ∀ j, j ≤ k → net' (0 + j) = net (0 + j) := by
      intro j hj
      rw [Nat.zero_add]
      exact hagree j hj
    have hloop := probeLoop_net_agree net net' k texts 0 initProbeState hk hprev0 hfail0 hagree0
    unfold check_endpoint
    rw [hloop]

/-- Network oracle for the C5 witness: request 0 gets a valid
translation, request 1 an HTTP 500, further requests never happen. -/
def netC5 : Nat → ReqResult := fun i =>
  if i = 0 then
    ReqResult.ok { status := 200, jsonBody := some ([Node.obj [("data", 1)], Node.str "你好"], 0) }
  else ReqResult.ok { status := 500, jsonBody := none }

/-- C5 witness: with three configured samples and a failure at the
second, exactly two samples are recorded and the endpoint fails. -/
theorem check_endpoint_short_circuit_witness :
    (check_endpoint "A" "http://a.test" ["Hello", "World", "Again"] netC5).samples.length = 2
    ∧ (check_endpoint "A" "http://a.test" ["Hello", "World", "Again"] netC5).success = false := by
  have h := check_endpoint_short_circuit "A" "http://a.test" ["Hello", "World", "Again"] netC5 1
    (by decide) (by decide) (by decide)
  exact ⟨h.2.1, h.2.2.2.1⟩

/-- C6: the summary detail is derived in priority order — all samples
succeeded: "All N samples translated"; else the first failed recorded
sample dictates it, as its own detail prefixed with the sample text and
suffixed with " -> translation" exactly when a (necessarily non-empty)
translation was extracted; else a captured transport exception yields
"Request failed: ..."; else "Unknown failure". -/
theorem check_endpoint_detail_priority :
    (∀ (name base_url : String) (texts : List String) (net : Nat → ReqResult),
      (check_endpoint name base_url texts net).detail
        = summaryDetail texts.length (check_endpoint name base_url texts net).success
            (probeLoop net texts 0 initProbeState).samples
            (probeLoop net texts 0 initProbeState).last_exception)
    ∧ (∀ (total : Nat) (samples : List SampleResult) (le : Option String),
        summaryDetail total true samples le = "All " ++ toString total ++ " samples translated")
    ∧ (∀ (total : Nat) (le : Option String) (pre : List SampleResult) (fs : SampleResult)
          (post : List SampleResult),
        (∀ s ∈ pre, s.success = true) → fs.success = false →
        summaryDetail total false (pre ++ fs :: post) le
          = "Sample " ++ squote ++ fs.text ++ squote ++ " failed: " ++ fs.detail
            ++ (if truthyOptStr fs.translation then " -> " ++ optTranslationText fs.translation
                else ""))
    ∧ (∀ (total : Nat) (samples : List SampleResult) (e : String),
        (∀ s ∈ samples, s.success = true) →
        summaryDetail total false samples (some e) = "Request failed: " ++ e)
    ∧ (∀ (total : Nat) (samples : List SampleResult),
        (∀ s ∈ samples, s.success = true) →
        summaryDetail total false samples none = "Unknown failure")
    ∧ (∀ (store : Store) (root : Ref) (t : String),
        extract_translation store root = some t → t ≠ "") := by
  refine ⟨fun _ _ _ _ => rfl, fun _ _ _ => rfl, ?_, ?_, ?_, extract_translation_ne⟩
  · intro total le pre fs post hpre hfs
    have hfind := find?_first_fail pre fs post hpre hfs
    simp only [summaryDetail, Bool.false_eq_true, if_false, hfind]
  · intro total samples e hall
    have hfind : samples.find? (fun s => !s.success) = none := by
      rw [List.find?_eq_none]
      intro x hx
      simp [hall x hx]
    simp only [summaryDetail, Bool.false_eq_true, if_false, hfind]
  · intro total samples hall
    have hfind : samples.find? (fun s => !s.success) = none := by
      rw [List.find?_eq_none]
      intro x hx
      simp [hall x hx]
    simp only [summaryDetail, Bool.false_eq_true, if_false, hfind]

/-- C6 witness: the first-failed-sample branch at a concrete record. -/
theorem check_endpoint_detail_priority_witness :
    summaryDetail 2 false
      ([{ text := "Hello", translation := some "你好", success := true, detail := "OK" }]
        ++ { text := "World", translation := none, success := false, detail := "HTTP 500" } :: [])
      none
      = "Sample " ++ squote ++ "World" ++ squote ++ " failed: " ++ "HTTP 500"
        ++ (if truthyOptStr (none : Option String) then
              " -> " ++ optTranslationText (none : Option String) else "") :=
  check_endpoint_detail_priority.2.2.1 2 none
    [{ text := "Hello", translation := some "你好", success := true, detail := "OK" }]
    { text := "World", translation := none, success := false, detail := "HTTP 500" } []
    (by decide) (by decide)

lemma list_all_map_id {α : Type} (l : List α) (f : α → Bool) :
    (l.map f).all id = l.all f := by
  induction l with
  | nil => rfl
  | cons x xs ih => simp [List.all_cons, ih]

/-- C7: given a successful read of the endpoint list the exit code is
the pure function `specExitCode` of the per-endpoint success flags and
the allow-partial flag (0 when all succeed or partial is allowed, else
1); exit code 2 arises exactly from a failed read, before any endpoint
is probed. -/
theorem main_exit_code (texts : List String) (nets : Nat → Nat → ReqResult)
    (partial_ok : Bool) :
    (∀ msg, mainModel (ReadOutcome.failure msg) texts nets partial_ok = 2)
    ∧ (∀ endpoints : List (String × String),
        mainModel (ReadOutcome.ok endpoints) texts nets partial_ok
          = specExitCode ((endpoints.enum.map
              (fun p => check_endpoint p.2.1 p.2.2 texts (nets p.1))).map
                (fun r => r.success)) partial_ok
        ∧ (mainModel (ReadOutcome.ok endpoints) texts nets partial_ok = 0
           ∨ mainModel (ReadOutcome.ok endpoints) texts nets partial_ok = 1)) := by
  refine ⟨fun msg => rfl, fun endpoints => ⟨?_, ?_⟩⟩
  · have hb : ((endpoints.enum.map (fun p => check_endpoint p.2.1 p.2.2 texts (nets p.1))).map
        (fun r => r.success)).all id
        = (endpoints.enum.map (fun p => check_endpoint p.2.1 p.2.2 texts (nets p.1))).all
            (fun r => r.success) :=
      list_all_map_id _ _
    simp only [mainModel, specExitCode, hb]
    cases (endpoints.enum.map (fun p => check_endpoint p.2.1 p.2.2 texts (nets p.1))).all
        (fun r => r.success) <;> cases partial_ok <;> rfl
  · simp only [mainModel]
    split
    · right; rfl
    · left; rfl

/-- C8: with a non-empty sample list, a failed endpoint result always
contains a recorded failed sample (transport failures record one whose
detail is the exception message), so the summary detail always comes
from the first failed sample and the "Request failed:" and
"Unknown failure" fallbacks are never produced. -/
theorem check_endpoint_failure_has_failed_sample (name base_url : String)
    (texts : List String) (net : Nat → ReqResult)
    (_hne : texts ≠ [])
    (hfail : (check_endpoint name base_url texts net).success = false) :
    ∃ fs, (check_endpoint name base_url texts net).samples.find? (fun s => !s.success) = some fs
      ∧ fs.success = false
      ∧ (check_endpoint name base_url texts net).detail
          = "Sample " ++ squote ++ fs.text ++ squote ++ " failed: " ++ fs.detail
            ++ (if truthyOptStr fs.translation then " -> " ++ optTranslationText fs.translation
                else "") := by
  rw [check_endpoint_success_def] at hfail
  have hx : ¬ ∀ s ∈ (probeLoop net texts 0 initProbeState).samples, s.success = true := by
    intro hall
    obtain ⟨hcomp, _⟩ := probeLoop_all_success net texts 0 initProbeState hall
    rw [hcomp] at hfail
    simp [initProbeState] at hfail
  push_neg at hx
  obtain ⟨s0, hs0mem, hs0⟩ := hx
  have hsome : ((probeLoop net texts 0 initProbeState).samples.find?
      (fun s => !s.success)).isSome := by
    rw [List.find?_isSome]
    exact ⟨s0, hs0mem, by simp [hs0]⟩
  obtain ⟨fs, hfs⟩ := Option.isSome_iff_exists.mp hsome
  refine ⟨fs, ?_, ?_, ?_⟩
  · rw [check_endpoint_samples]
    exact hfs
  · have := List.find?_some hfs
    simpa using this
  · rw [check_endpoint_detail_def, hfail]
    simp only [summaryDetail, Bool.false_eq_true, if_false, hfs]

/-- C8 witness: a transport failure on the only sample leaves a failed
recorded sample that the detail derivation finds. -/
theorem check_endpoint_failure_has_failed_sample_witness :
    ((check_endpoint "A" "http://a.test" ["Hi"] (fun _ => ReqResult.exn "boom")).samples.find?
        (fun s => !s.success)).isSome = true := by
  obtain ⟨fs, hfind, -, -⟩ := check_endpoint_failure_has_failed_sample "A" "http://a.test" ["Hi"]
    (fun _ => ReqResult.exn "boom") (by decide) (by decide)
  rw [hfind]
  rfl
